import Mathlib

/-!
Verification of the tasker repository: a shallow embedding of its task
data model, the SQLite-backed repository operations (add, find-by-id,
list, mark-done), the `done` command workflow, and the CSV exporter,
together with theorems settling the specification claims.

The database is modelled as an explicit store value: a list of rows plus
the next AUTOINCREMENT id.  SQL statements become pure functions on the
store; Go strings become lists of unicode characters; Go's nullable
`*time.Time` becomes `Option DateTime`; fallible operations return
`Except`.  A `none` result of `printTask` models the nil-pointer panic
that formatting a nil `CompletedAt` causes in Go.
-/

namespace Tasker

/-- Go strings, modelled as lists of unicode scalar values. -/
abbrev GoStr := List Char

/-- Wall-clock timestamp as the store keeps it (calendar components, as
rendered by the Go layout string `2006-01-02 15:04:05`). -/
structure DateTime where
  year : Nat
  month : Nat
  day : Nat
  hour : Nat
  minute : Nat
  second : Nat
deriving DecidableEq, Repr

/-- The zero value of Go's `time.Time`: January 1 of year 1, 00:00:00. -/
def DateTime.goZero : DateTime := ⟨1, 1, 1, 0, 0, 0⟩

/-- `models.Task`: id, title, description, done flag, creation time and
the nullable completion time (`*time.Time`, here an `Option`). -/
structure Task where
  id : Nat
  title : GoStr
  description : GoStr
  done : Bool
  createdAt : DateTime
  completedAt : Option DateTime
deriving DecidableEq, Repr

/-- The zero value of `models.Task` that `findTaskById` scans into when
the query returns no rows. -/
def Task.goZero : Task := ⟨0, [], [], false, DateTime.goZero, none⟩

/-- The `tasks` table plus SQLite's AUTOINCREMENT counter (ids start at
1 and are never reused). -/
structure Store where
  rows : List Task
  nextId : Nat
deriving DecidableEq, Repr

/-- A freshly initialized store: empty table, first id 1. -/
def Store.freshDb : Store := ⟨[], 1⟩

/-- Database-level failures (`error` results of the Go functions).  The
pure model never produces one; the constructor keeps the `Except` shape
of every fallible signature faithful. -/
inductive DbError
  | storageFailure
deriving DecidableEq, Repr

/-- `addTask` (cmd/add.go): `INSERT INTO tasks (title, description,
created_at) VALUES (?, ?, ?)` — done defaults to FALSE and completed_at
to NULL per the schema in `createTables`. -/
def addTask (s : Store) (title description : GoStr) (now : DateTime) : Store :=
  { rows := s.rows ++
      [{ id := s.nextId, title := title, description := description,
         done := false, createdAt := now, completedAt := none }],
    nextId := s.nextId + 1 }

/-- `findTaskById` (cmd/done.go): `SELECT ... FROM tasks WHERE id = ?`,
then a scan loop that overwrites one zero-initialized `models.Task` with
each result row; with no matching row the zero value is returned, with a
nil error either way. -/
def findTaskById (s : Store) (idArg : Nat) : Except DbError Task :=
  Except.ok ((s.rows.filter (fun r => r.id == idArg)).foldl (fun _ r => r) Task.goZero)

/-- The UPDATE statement of `markTaskAsDone`: `UPDATE tasks SET done =
TRUE, completed_at = ? WHERE id = ?` — unconditional on the current done
flag, touching every row whose id matches. -/
def sqlMarkDone (s : Store) (idArg : Nat) (now : DateTime) : Store :=
  { s with
    rows := s.rows.map (fun r =>
      if r.id = idArg then { r with done := true, completedAt := some now } else r) }

/-- Decimal digit characters of `n`, most significant first, by fuelled
division (the fuel argument only makes the recursion structural; `n + 1`
steps always suffice). -/
def decDigitsAux : Nat → Nat → GoStr
  | 0, _ => []
  | fuel + 1, n =>
    if n < 10 then [Nat.digitChar n]
    else decDigitsAux fuel (n / 10) ++ [Nat.digitChar (n % 10)]

/-- The Go layout `2006-01-02 15:04:05` prints each component in decimal,
left-padded with zeros to the layout width.  Decimal digits, most
significant first. -/
def decDigits (n : Nat) : GoStr :=
  decDigitsAux (n + 1) n

/-- Zero-pad the decimal rendering of `n` to `width` characters. -/
def padNum (width n : Nat) : GoStr :=
  List.replicate (width - (decDigits n).length) '0' ++ decDigits n

/-- `Format("2006-01-02 15:04:05")` on a `time.Time`. -/
def formatDateTime (d : DateTime) : GoStr :=
  padNum 4 d.year ++ ('-' :: padNum 2 d.month) ++ ('-' :: padNum 2 d.day) ++
    (' ' :: padNum 2 d.hour) ++ (':' :: padNum 2 d.minute) ++ (':' :: padNum 2 d.second)

/-- The four task lines `printTask` writes. -/
structure TaskDisplay where
  titleLine : GoStr
  descriptionLine : GoStr
  createdAtLine : GoStr
  completedAtLine : GoStr
deriving DecidableEq, Repr

/-- `printTask` (cmd/done.go): defaults an empty description to `N/A`,
then formats CreatedAt and CompletedAt.  `task.CompletedAt` is a
`*time.Time` and the source calls `.Format` on it with no nil check, so
a task without a completion time makes the function panic: modelled as
`none`. -/
def printTask (t : Task) : Option TaskDisplay :=
  let desc := if t.description = [] then "N/A".data else t.description
  match t.completedAt with
  | none => none
  | some c => some ⟨t.title, desc, formatDateTime t.createdAt, formatDateTime c⟩

/-- What `markTaskAsDone` reports: the nil-task message, or the success
message (with the display that follows it, `none` when printing
panics). -/
inductive MarkResult
  | nilTaskMsg
  | markedMsg (title : GoStr) (display : Option TaskDisplay)
deriving DecidableEq, Repr

/-- `markTaskAsDone` (cmd/done.go): nil task prints the not-found
message and writes nothing; otherwise it runs the UPDATE, prints the
success message, and prints the task it was handed (the pre-update
in-memory value).  The result of `DB.Exec` is discarded except for the
error, so the number of rows the UPDATE matched is never inspected. -/
def markTaskAsDone (s : Store) (task : Option Task) (now : DateTime) :
    Store × MarkResult :=
  match task with
  | none => (s, MarkResult.nilTaskMsg)
  | some t => (sqlMarkDone s t.id now, MarkResult.markedMsg t.title (printTask t))

/-- The observable outcome of the `done` command. -/
inductive DoneOutcome
  | findErrorMsg (e : DbError)
  | notFoundMsg
  | alreadyDoneMsg (display : Option TaskDisplay)
  | markOutcome (r : MarkResult)
deriving DecidableEq, Repr

/-- The `done [id]` command (cmd/done.go): find the task, report a find
error, treat a zero id as not found, report an already-done task without
mutating, otherwise call `markTaskAsDone` with the found task. -/
def doneCmd (s : Store) (idArg : Nat) (now : DateTime) : Store × DoneOutcome :=
  match findTaskById s idArg with
  | Except.error e => (s, DoneOutcome.findErrorMsg e)
  | Except.ok task =>
    if task.id = 0 then (s, DoneOutcome.notFoundMsg)
    else if task.done then (s, DoneOutcome.alreadyDoneMsg (printTask task))
    else
      let p := markTaskAsDone s (some task) now
      (p.1, DoneOutcome.markOutcome p.2)

/-- `listTasks` (cmd/list.go): `SELECT id, title, description, done,
created_at, completed_at FROM tasks`, appending each row in the order
the cursor yields them (the table's natural insertion order). -/
def listTasks (s : Store) : Except DbError (List Task) :=
  Except.ok s.rows

/-- `getAllTasks` (cmd/export.go): same query and scan loop as
`listTasks`. -/
def getAllTasks (s : Store) : Except DbError (List Task) :=
  Except.ok s.rows

/-! ## CSV writing (encoding/csv, `Writer` with the default comma and
`UseCRLF = false`) -/

/-- The characters whose presence forces `encoding/csv` to quote a
field: the comma delimiter, the double quote, and the two line-break
characters. -/
def specialChar (c : Char) : Bool :=
  c == ',' || c == '"' || c == '\r' || c == '\n'

/-- `unicode.IsSpace`: the White_Space code points (ASCII \t \n \v \f \r
and space, NEL, NBSP, OGHAM SPACE MARK, U+2000-200A, LINE SEPARATOR,
PARAGRAPH SEPARATOR, NARROW NBSP, MATHEMATICAL SPACE, IDEOGRAPHIC
SPACE). -/
def isGoSpace (c : Char) : Bool :=
  let n := c.toNat
  (9 ≤ n && n ≤ 13) || n == 32 || n == 133 || n == 160 || n == 5760 ||
    (8192 ≤ n && n ≤ 8202) || n == 8232 || n == 8233 || n == 8239 ||
    n == 8287 || n == 12288

/-- `Writer.fieldNeedsQuotes`: the empty field is unquoted; the literal
backslash-dot field, any field containing a special character, and any
field whose first rune is white space are quoted. -/
def fieldNeedsQuotes (f : GoStr) : Bool :=
  match f with
  | [] => false
  | c :: _ => f == ['\\', '.'] || f.any specialChar || isGoSpace c

/-- Double every embedded quote character (the quoted-field body the
writer emits; with `UseCRLF = false` carriage returns and newlines pass
through unchanged). -/
def escapeQuotes : GoStr → GoStr
  | [] => []
  | c :: rest =>
    if c == '"' then '"' :: '"' :: escapeQuotes rest else c :: escapeQuotes rest

/-- One encoded field: quoted with doubled inner quotes when needed,
verbatim otherwise. -/
def writeField (f : GoStr) : GoStr :=
  if fieldNeedsQuotes f then '"' :: (escapeQuotes f ++ ['"']) else f

/-- `Writer.Write`: the encoded fields joined by commas, terminated by a
single newline. -/
def writeRecord : List GoStr → GoStr
  | [] => ['\n']
  | [f] => writeField f ++ ['\n']
  | f :: fs => writeField f ++ (',' :: writeRecord fs)

/-- `strconv.Itoa` on a task id. -/
def itoa (n : Nat) : GoStr := decDigits n

/-- `strconv.FormatBool`. -/
def formatBool (b : Bool) : GoStr :=
  if b then "true".data else "false".data

/-- The header record `exportTasks` writes. -/
def headerRecord : List GoStr :=
  ["ID".data, "Title".data, "Description".data, "Done".data,
   "Created At".data, "Completed At".data]

/-- The six fields `exportTasks` builds for one task: id, title,
description, done, formatted creation time, and the formatted completion
time or the empty string when the pointer is nil. -/
def taskRecord (t : Task) : List GoStr :=
  [itoa t.id, t.title, t.description, formatBool t.done,
   formatDateTime t.createdAt,
   match t.completedAt with
   | some c => formatDateTime c
   | none => []]

/-- The byte content of the CSV file `exportTasks` produces for a given
task list: the header record, then one record per task in order. -/
def exportCSV (tasks : List Task) : GoStr :=
  writeRecord headerRecord ++ (tasks.map (fun t => writeRecord (taskRecord t))).flatten

/-- `exportTasks` (cmd/export.go): fetch all tasks, then write header
and rows; file-creation failures are outside the pure model, storage
failures propagate. -/
def exportTasks (s : Store) : Except DbError GoStr :=
  match getAllTasks s with
  | Except.error e => Except.error e
  | Except.ok tasks => Except.ok (exportCSV tasks)

/-! ## An RFC-4180 reader

Modelled from the spec: the claims compare the exporter's output against
"a standard RFC-4180 reader", which is not part of the repository.  The
functions below implement the RFC 4180 grammar directly: a field is
either quoted (`""` standing for one embedded quote, commas and line
breaks allowed inside) or unquoted text up to the next delimiter, and a
record is a comma-separated field sequence terminated by LF or CRLF. -/

/-- Parse the body of a quoted field, the opening quote already
consumed.  Returns the decoded field and the input after the closing
quote; `none` on an unterminated quote. -/
def parseQuoted : GoStr → Option (GoStr × GoStr)
  | [] => none
  | c :: rest =>
    if c == '"' then
      match rest with
      | [] => some ([], [])
      | c2 :: rest2 =>
        if c2 == '"' then (parseQuoted rest2).map (fun p => ('"' :: p.1, p.2))
        else some ([], rest)
    else (parseQuoted rest).map (fun p => (c :: p.1, p.2))

/-- Parse an unquoted field: everything up to the next comma or line
break. -/
def parseUnquoted : GoStr → GoStr × GoStr
  | [] => ([], [])
  | c :: rest =>
    if c == ',' || c == '\n' || c == '\r' then ([], c :: rest)
    else
      let p := parseUnquoted rest
      (c :: p.1, p.2)

/-- Parse one field, dispatching on an opening quote. -/
def rfcParseField (s : GoStr) : Option (GoStr × GoStr) :=
  match s with
  | [] => some ([], [])
  | c :: _ => if c == '"' then parseQuoted s.tail else some (parseUnquoted s)

/-- Parse the comma-separated fields of one record up to and including
its LF or CRLF terminator (or end of input).  Fuelled recursion: each
step consumes the delimiter after the field. -/
def rfcParseFieldsAux : Nat → GoStr → Option (List GoStr × GoStr)
  | 0, _ => none
  | fuel + 1, s =>
    match rfcParseField s with
    | none => none
    | some (f, rest) =>
      match rest with
      | [] => some ([f], [])
      | c :: rest2 =>
        if c == ',' then (rfcParseFieldsAux fuel rest2).map (fun p => (f :: p.1, p.2))
        else if c == '\n' then some ([f], rest2)
        else if c == '\r' then
          match rest2 with
          | c2 :: rest3 => if c2 == '\n' then some ([f], rest3) else none
          | [] => none
        else none

/-- Parse one complete record, requiring the whole input consumed. -/
def rfcParseRecord (s : GoStr) : Option (List GoStr) :=
  match rfcParseFieldsAux (s.length + 1) s with
  | some (fs, []) => some fs
  | _ => none

/-! ## Operation sequences and store invariants -/

/-- The store-mutating operations of the repository: inserting a task
(the add command) and the mark-done UPDATE. -/
inductive Op
  | addOp (title description : GoStr) (now : DateTime)
  | markOp (idArg : Nat) (now : DateTime)

/-- Apply one operation to the store. -/
def applyOp (s : Store) : Op → Store
  | Op.addOp t d now => addTask s t d now
  | Op.markOp i now => sqlMarkDone s i now

/-- The store after a sequence of operations on a fresh database. -/
def runOps (ops : List Op) : Store :=
  ops.foldl applyOp Store.freshDb

/-- Structural well-formedness: ids start at 1, stay below the
AUTOINCREMENT counter, and are pairwise distinct. -/
def Store.Wf (s : Store) : Prop :=
  1 ≤ s.nextId ∧ (∀ r ∈ s.rows, 1 ≤ r.id ∧ r.id < s.nextId) ∧
    (s.rows.map Task.id).Nodup

/-- The completion invariant: a row is done exactly when its completion
time is present. -/
def Store.ClockInv (s : Store) : Prop :=
  ∀ r ∈ s.rows, r.done = r.completedAt.isSome

/-- A store an operation sequence can produce from a fresh database. -/
def Store.Reachable (s : Store) : Prop :=
  ∃ ops, runOps ops = s

/-- Insert a list of (title, description, creation time) triples in
order, as repeated add commands. -/
def addMany (s : Store) (ps : List (GoStr × GoStr × DateTime)) : Store :=
  ps.foldl (fun acc p => addTask acc p.1 p.2.1 p.2.2) s

/-! ## Spec-side timestamp description

These definitions follow the words of the spec, not the source: the
fixed textual format `YYYY-MM-DD HH:MM:SS`, each component zero-padded
to its width, written digit by digit.  They exist to be compared with
`formatDateTime`, which models the source's layout-driven formatting. -/

/-- The decimal digit character in a given position. -/
def specDigit (n : Nat) : Char := Nat.digitChar (n % 10)

/-- A two-digit zero-padded component, per the spec's words. -/
def specPad2 (n : Nat) : GoStr := [specDigit (n / 10), specDigit n]

/-- A four-digit zero-padded year, per the spec's words. -/
def specPad4 (n : Nat) : GoStr :=
  [specDigit (n / 1000), specDigit (n / 100), specDigit (n / 10), specDigit n]

/-- `YYYY-MM-DD HH:MM:SS`, assembled per the spec's words. -/
def specTimestamp (d : DateTime) : GoStr :=
  specPad4 d.year ++ ('-' :: specPad2 d.month) ++ ('-' :: specPad2 d.day) ++
    (' ' :: specPad2 d.hour) ++ (':' :: specPad2 d.minute) ++ (':' :: specPad2 d.second)

/-! ## Concrete sample data for counterexamples and witnesses -/

/-- A sample instant. -/
def sampleDate : DateTime := ⟨2024, 3, 7, 9, 5, 2⟩

/-- A later sample instant. -/
def laterDate : DateTime := ⟨2024, 3, 7, 10, 0, 0⟩

/-- An incomplete stored task, as the add command would create it. -/
def sampleIncomplete : Task :=
  ⟨1, "Buy milk".data, [], false, sampleDate, none⟩

/-- A store holding just `sampleIncomplete`. -/
def sampleStore : Store := ⟨[sampleIncomplete], 2⟩

/-- A task value whose id matches no stored row. -/
def ghostTask : Task :=
  ⟨5, "Ghost".data, [], false, sampleDate, none⟩

/-- A task whose title carries the spec's delimiter-and-quote example. -/
def sampleQuoted : Task :=
  ⟨1, "A, \"B\", C".data, "desc".data, false, sampleDate, none⟩

/-! ## Helper lemmas: find and the mark-done UPDATE -/

theorem find_no_match (s : Store) (i : Nat) (h : ∀ r ∈ s.rows, r.id ≠ i) :
    findTaskById s i = Except.ok Task.goZero := by
  unfold findTaskById
  have hf : s.rows.filter (fun r => r.id == i) = [] := by
    rw [List.filter_eq_nil_iff]
    intro a ha
    simpa using h a ha
  rw [hf]
  rfl

theorem filter_id_unique {rows : List Task} {r : Task} {i : Nat}
    (hnd : (rows.map Task.id).Nodup) (hr : r ∈ rows) (hid : r.id = i) :
    rows.filter (fun x => x.id == i) = [r] := by
  induction rows with
  | nil => cases hr
  | cons x xs ih =>
    rw [List.map_cons, List.nodup_cons] at hnd
    obtain ⟨hx, hxs⟩ := hnd
    rcases List.mem_cons.mp hr with rfl | hmem
    · rw [List.filter_cons_of_pos (by simpa using hid)]
      have hnil : xs.filter (fun y => y.id == i) = [] := by
        rw [List.filter_eq_nil_iff]
        intro a ha hcontra
        exact hx (List.mem_map.mpr ⟨a, ha, by simpa [hid] using hcontra⟩)
      rw [hnil]
    · have hxid : ¬((x.id == i) = true) := by
        intro hcontra
        have hxi : x.id = i := by simpa using hcontra
        exact hx (List.mem_map.mpr ⟨r, hmem, by rw [hid, hxi]⟩)
      rw [List.filter_cons_of_neg (by simpa using hxid)]
      exact ih hxs hmem

theorem find_match (s : Store) (i : Nat) (hnd : (s.rows.map Task.id).Nodup)
    (r : Task) (hr : r ∈ s.rows) (hid : r.id = i) :
    findTaskById s i = Except.ok r := by
  unfold findTaskById
  rw [filter_id_unique hnd hr hid]
  rfl

theorem sqlMarkDone_map_id (s : Store) (i : Nat) (now : DateTime) :
    (sqlMarkDone s i now).rows.map Task.id = s.rows.map Task.id := by
  unfold sqlMarkDone
  rw [List.map_map]
  apply List.map_congr_left
  intro a _
  by_cases h : a.id = i <;> simp [h]

theorem sqlMarkDone_row_of_id (s : Store) (i : Nat) (now : DateTime) (r' : Task)
    (h : r' ∈ (sqlMarkDone s i now).rows) (hid : r'.id = i) :
    r'.done = true ∧ r'.completedAt = some now := by
  unfold sqlMarkDone at h
  obtain ⟨a, _, rfl⟩ := List.mem_map.mp h
  by_cases hcase : a.id = i
  · simp [hcase]
  · rw [if_neg hcase] at hid ⊢
    exact absurd hid hcase

theorem sqlMarkDone_mem (s : Store) (i : Nat) (now : DateTime) (r : Task)
    (hr : r ∈ s.rows) (hid : r.id = i) :
    { r with done := true, completedAt := some now } ∈ (sqlMarkDone s i now).rows := by
  unfold sqlMarkDone
  have h := List.mem_map_of_mem
    (f := fun x => if x.id = i then { x with done := true, completedAt := some now } else x) hr
  simpa [hid] using h

theorem sqlMarkDone_no_match (s : Store) (i : Nat) (now : DateTime)
    (h : ∀ r ∈ s.rows, r.id ≠ i) : sqlMarkDone s i now = s := by
  unfold sqlMarkDone
  have hm : s.rows.map (fun r =>
      if r.id = i then { r with done := true, completedAt := some now } else r) = s.rows := by
    have : s.rows.map (fun r =>
        if r.id = i then { r with done := true, completedAt := some now } else r) =
        s.rows.map id := by
      apply List.map_congr_left
      intro a ha
      simp [h a ha]
    rw [this, List.map_id]
  rw [hm]

/-! ## Invariants of reachable stores -/

theorem wf_addTask {s : Store} (t d : GoStr) (now : DateTime) (h : s.Wf) :
    (addTask s t d now).Wf := by
  obtain ⟨h1, h2, h3⟩ := h
  refine ⟨by simp only [addTask]; omega, ?_, ?_⟩
  · intro r hr
    simp only [addTask, List.mem_append, List.mem_singleton] at hr
    rcases hr with hr | rfl
    · have := h2 r hr
      simp only [addTask]
      omega
    · simp only [addTask]
      omega
  · simp only [addTask, List.map_append, List.map_cons, List.map_nil]
    rw [List.nodup_append]
    refine ⟨h3, List.nodup_singleton _, ?_⟩
    intro a ha hb
    rw [List.mem_singleton] at hb
    subst hb
    obtain ⟨r, hr, hid⟩ := List.mem_map.mp ha
    have := h2 r hr
    omega

theorem wf_sqlMarkDone {s : Store} (i : Nat) (now : DateTime) (h : s.Wf) :
    (sqlMarkDone s i now).Wf := by
  obtain ⟨h1, h2, h3⟩ := h
  refine ⟨h1, ?_, ?_⟩
  · intro r hr
    unfold sqlMarkDone at hr
    obtain ⟨a, ha, rfl⟩ := List.mem_map.mp hr
    have := h2 a ha
    by_cases hcase : a.id = i <;> simp [sqlMarkDone, hcase] <;> omega
  · rw [sqlMarkDone_map_id]
    exact h3

theorem clockInv_addTask {s : Store} (t d : GoStr) (now : DateTime)
    (h : s.ClockInv) : (addTask s t d now).ClockInv := by
  intro r hr
  simp only [addTask, List.mem_append, List.mem_singleton] at hr
  rcases hr with hr | rfl
  · exact h r hr
  · rfl

theorem clockInv_sqlMarkDone {s : Store} (i : Nat) (now : DateTime)
    (h : s.ClockInv) : (sqlMarkDone s i now).ClockInv := by
  intro r hr
  unfold sqlMarkDone at hr
  obtain ⟨a, ha, rfl⟩ := List.mem_map.mp hr
  by_cases hcase : a.id = i
  · simp [hcase]
  · simpa [hcase] using h a ha

theorem wf_applyOp {s : Store} (op : Op) (h : s.Wf ∧ s.ClockInv) :
    (applyOp s op).Wf ∧ (applyOp s op).ClockInv := by
  cases op with
  | addOp t d now => exact ⟨wf_addTask t d now h.1, clockInv_addTask t d now h.2⟩
  | markOp i now => exact ⟨wf_sqlMarkDone i now h.1, clockInv_sqlMarkDone i now h.2⟩

theorem wf_foldl {s : Store} (ops : List Op) (h : s.Wf ∧ s.ClockInv) :
    (ops.foldl applyOp s).Wf ∧ (ops.foldl applyOp s).ClockInv := by
  induction ops generalizing s with
  | nil => exact h
  | cons op ops ih => exact ih (wf_applyOp op h)

theorem wf_freshDb : Store.freshDb.Wf ∧ Store.freshDb.ClockInv := by
  refine ⟨⟨Nat.le_refl 1, ?_, List.nodup_nil⟩, ?_⟩ <;> intro r hr <;> cases hr

theorem runOps_wf (ops : List Op) : (runOps ops).Wf ∧ (runOps ops).ClockInv :=
  wf_foldl ops wf_freshDb

theorem reachable_wf {s : Store} (h : s.Reachable) : s.Wf ∧ s.ClockInv := by
  obtain ⟨ops, rfl⟩ := h
  exact runOps_wf ops

/-! ## The claims -/

/-- Claim C1: the claim states that `findTaskById` signals NotFound for
an id matching no stored task and never returns a zero-valued
placeholder with a nil error.  The code does the opposite: on the
failing input (a fresh store and id 1, which matches nothing) it
returns the zero-valued `models.Task` — id 0, done false — paired with
a nil error, i.e. a successful result.  The caller is left to infer
absence from `task.ID == 0`. -/
theorem c1_findTaskById_zero_value_success :
    findTaskById Store.freshDb 1 = Except.ok Task.goZero ∧
    Task.goZero.id = 0 ∧ Task.goZero.done = false :=
  ⟨rfl, rfl, rfl⟩

/-- Claim C4: the claim states `printTask` never dereferences a nil
`completed_at` and the done command's success path does not panic.  The
code has no nil check: on the failing input — the done command applied
to the sample store's incomplete task (CompletedAt still nil when
found) — `printTask` formats the nil pointer, a panic (`none` in the
model), reached on the success path right after the row is updated. -/
theorem c4_printTask_panics_on_done_path :
    printTask sampleIncomplete = none ∧
    (doneCmd sampleStore 1 sampleDate).2 =
      DoneOutcome.markOutcome (MarkResult.markedMsg "Buy milk".data none) :=
  ⟨rfl, rfl⟩

/-- Claim C2, counterexample: on a store holding one incomplete task,
the done command updates the store but the display it produces is not
the updated task — it hands `printTask` the pre-update value (done
still false), whose nil completion time makes printing panic (`none`),
so the outcome differs from what displaying the updated task would have
produced. -/
theorem c2_counterexample :
    (doneCmd sampleStore 1 laterDate).2 =
      DoneOutcome.markOutcome (MarkResult.markedMsg "Buy milk".data none) ∧
    sampleIncomplete.done = false ∧
    (doneCmd sampleStore 1 laterDate).2 ≠
      DoneOutcome.markOutcome (MarkResult.markedMsg "Buy milk".data
        (printTask { sampleIncomplete with done := true, completedAt := some laterDate })) := by
  refine ⟨rfl, rfl, ?_⟩
  decide

/-- Claim C2 as amended: for every reachable store, (1) an id matching
no row reports not-found with no mutation; (2) a found, already-done
task reports already-done and displays that task with no mutation; (3)
otherwise the command runs the mark-done UPDATE (every row with that id
becomes done with the new completion time) but then displays the
in-memory task found before the update — still showing done = false and
a nil completed_at, so the display panics instead of showing the
updated task. -/
theorem c2_done_workflow (s : Store) (i : Nat) (now : DateTime)
    (hs : s.Reachable) :
    ((∀ r ∈ s.rows, r.id ≠ i) → doneCmd s i now = (s, DoneOutcome.notFoundMsg)) ∧
    (∀ r ∈ s.rows, r.id = i → r.done = true →
      doneCmd s i now = (s, DoneOutcome.alreadyDoneMsg (printTask r))) ∧
    (∀ r ∈ s.rows, r.id = i → r.done = false →
      doneCmd s i now =
        (sqlMarkDone s i now,
         DoneOutcome.markOutcome (MarkResult.markedMsg r.title (printTask r))) ∧
      printTask r = none ∧
      (∀ r' ∈ (sqlMarkDone s i now).rows, r'.id = i →
        r'.done = true ∧ r'.completedAt = some now)) := by
  obtain ⟨⟨hn1, hbounds, hnd⟩, hinv⟩ := reachable_wf hs
  refine ⟨?_, ?_, ?_⟩
  · intro h
    unfold doneCmd
    rw [find_no_match s i h]
    rfl
  · intro r hr hid hdone
    subst hid
    have hne : r.id ≠ 0 := by have := hbounds r hr; omega
    unfold doneCmd
    rw [find_match s r.id hnd r hr rfl]
    simp [hne, hdone]
  · intro r hr hid hdone
    subst hid
    have hne : r.id ≠ 0 := by have := hbounds r hr; omega
    have hnone : r.completedAt = none := by
      have := hinv r hr
      rw [hdone] at this
      exact (Option.not_isSome_iff_eq_none.mp (by rw [← this]; simp)).symm ▸ rfl
    refine ⟨?_, ?_, ?_⟩
    · unfold doneCmd
      rw [find_match s r.id hnd r hr rfl]
      simp [hne, hdone, markTaskAsDone]
    · simp [printTask, hnone]
    · intro r' hr' hid'
      exact sqlMarkDone_row_of_id s r.id now r' hr' hid'

/-- A reachable witness for the amended done workflow: the sample store
is produced by one add command. -/
theorem c2_done_workflow_witness :
    doneCmd sampleStore 1 laterDate =
      (sqlMarkDone sampleStore 1 laterDate,
       DoneOutcome.markOutcome (MarkResult.markedMsg "Buy milk".data none)) :=
  have hreach : sampleStore.Reachable :=
    ⟨[Op.addOp "Buy milk".data [] sampleDate], by decide⟩
  have h := (c2_done_workflow sampleStore 1 laterDate hreach).2.2
    sampleIncomplete (by decide) (by decide) (by decide)
  by rw [h.1, ← h.2.1]; rfl

/-- Claim C3, counterexample: the claim states `markTaskAsDone` fails
with NotFound when its update matches zero rows.  On a fresh (empty)
store and a non-nil task with id 5, the UPDATE matches nothing, yet the
function prints the success message (`markedMsg`), not the not-found
message, leaving the store unchanged. -/
theorem c3_counterexample :
    markTaskAsDone Store.freshDb (some ghostTask) sampleDate =
      (Store.freshDb, MarkResult.markedMsg "Ghost".data none) ∧
    MarkResult.markedMsg "Ghost".data (none : Option TaskDisplay) ≠
      MarkResult.nilTaskMsg := by
  refine ⟨rfl, ?_⟩
  decide

/-- Claim C3 as amended: `markTaskAsDone` reports not-found only when
handed a nil task pointer.  For every non-nil task it reports the
success message unconditionally — rows-affected is never inspected — so
when the task's id matches no stored row the store is unchanged and
success is still reported; the NotFound outcome for missing ids is left
to the caller's zero-id check after `findTaskById`. -/
theorem c3_markTaskAsDone_behavior (s : Store) (t : Task) (now : DateTime) :
    markTaskAsDone s none now = (s, MarkResult.nilTaskMsg) ∧
    (markTaskAsDone s (some t) now).2 = MarkResult.markedMsg t.title (printTask t) ∧
    ((∀ r ∈ s.rows, r.id ≠ t.id) → markTaskAsDone s (some t) now = (s, MarkResult.markedMsg t.title (printTask t))) := by
  refine ⟨rfl, rfl, ?_⟩
  intro h
  show (sqlMarkDone s t.id now, MarkResult.markedMsg t.title (printTask t)) = _
  rw [sqlMarkDone_no_match s t.id now h]

/-- Witness for the amended C3 at a concrete input. -/
theorem c3_markTaskAsDone_behavior_witness :
    markTaskAsDone Store.freshDb (some ghostTask) laterDate =
      (Store.freshDb, MarkResult.markedMsg "Ghost".data (printTask ghostTask)) :=
  (c3_markTaskAsDone_behavior Store.freshDb ghostTask laterDate).2.2
    (by intro r hr; cases hr)

/-- Claim C5: the mark-done UPDATE on a stored incomplete task sets done
to true and completed_at to the passed instant; invoking it again is
not a no-op — every row with that id then carries the second instant,
done still true, and when the two instants differ the stored completion
time has changed. -/
theorem c5_markDone_overwrites (s : Store) (t : Task) (t1 t2 : DateTime)
    (hmem : t ∈ s.rows) (_hinc : t.done = false) :
    (∃ r ∈ ((markTaskAsDone s (some t) t1).1).rows,
        r.id = t.id ∧ r.done = true ∧ r.completedAt = some t1) ∧
    (∀ r ∈ ((markTaskAsDone s (some t) t1).1).rows, r.id = t.id →
        r.done = true ∧ r.completedAt = some t1) ∧
    (∃ r ∈ ((markTaskAsDone (markTaskAsDone s (some t) t1).1 (some t) t2).1).rows,
        r.id = t.id ∧ r.done = true ∧ r.completedAt = some t2) ∧
    (∀ r ∈ ((markTaskAsDone (markTaskAsDone s (some t) t1).1 (some t) t2).1).rows,
        r.id = t.id → r.done = true ∧ r.completedAt = some t2) ∧
    (t1 ≠ t2 →
      ∀ r1 ∈ ((markTaskAsDone s (some t) t1).1).rows, r1.id = t.id →
      ∀ r2 ∈ ((markTaskAsDone (markTaskAsDone s (some t) t1).1 (some t) t2).1).rows,
        r2.id = t.id → r1.completedAt ≠ r2.completedAt) := by
  have h1mem := sqlMarkDone_mem s t.id t1 t hmem rfl
  refine ⟨⟨_, h1mem, rfl, rfl, rfl⟩, ?_, ?_, ?_, ?_⟩
  · intro r hr hid
    exact sqlMarkDone_row_of_id s t.id t1 r hr hid
  · exact ⟨_, sqlMarkDone_mem _ t.id t2 _ h1mem rfl, rfl, rfl, rfl⟩
  · intro r hr hid
    exact sqlMarkDone_row_of_id _ t.id t2 r hr hid
  · intro hne r1 hr1 hid1 r2 hr2 hid2
    have e1 := (sqlMarkDone_row_of_id s t.id t1 r1 hr1 hid1).2
    have e2 := (sqlMarkDone_row_of_id _ t.id t2 r2 hr2 hid2).2
    rw [e1, e2]
    intro hcontra
    exact hne (Option.some.inj hcontra)

/-- Witness for C5 at a concrete input. -/
theorem c5_markDone_overwrites_witness :
    ∃ r ∈ ((markTaskAsDone (markTaskAsDone sampleStore (some sampleIncomplete) sampleDate).1
        (some sampleIncomplete) laterDate).1).rows,
      r.id = 1 ∧ r.done = true ∧ r.completedAt = some laterDate :=
  (c5_markDone_overwrites sampleStore sampleIncomplete sampleDate laterDate
    (by decide) (by decide)).2.2.1

/-- Claim C6: after any sequence of create and mark-done operations on a
fresh store, every row's done flag equals the presence of its completion
time (so `completed_at` is null exactly when `done` is false); and once
a row is done, any further operations leave a row with that id that is
still done with a non-null completion time. -/
theorem c6_completedAt_invariant (ops extra : List Op) :
    (∀ r ∈ (runOps ops).rows, r.done = r.completedAt.isSome) ∧
    (∀ i, (∃ r ∈ (runOps ops).rows, r.id = i ∧ r.done = true) →
      ∃ r' ∈ (runOps (ops ++ extra)).rows,
        r'.id = i ∧ r'.done = true ∧ r'.completedAt.isSome = true) := by
  constructor
  · exact (runOps_wf ops).2
  · rintro i ⟨r, hr, hid, hdone⟩
    have hsome : r.completedAt.isSome = true := by
      rw [← (runOps_wf ops).2 r hr]
      exact hdone
    have key : ∀ (l : List Op) (s : Store),
        (∃ r' ∈ s.rows, r'.id = i ∧ r'.done = true ∧ r'.completedAt.isSome = true) →
        ∃ r' ∈ (l.foldl applyOp s).rows,
          r'.id = i ∧ r'.done = true ∧ r'.completedAt.isSome = true := by
      intro l
      induction l with
      | nil => exact fun s h => h
      | cons op l ih =>
        intro s h
        apply ih
        obtain ⟨r', hr', hid', hdone', hsome'⟩ := h
        cases op with
        | addOp t d now =>
          refine ⟨r', ?_, hid', hdone', hsome'⟩
          simp only [applyOp, addTask, List.mem_append]
          exact Or.inl hr'
        | markOp j now =>
          by_cases hcase : r'.id = j
          · exact ⟨{ r' with done := true, completedAt := some now },
              sqlMarkDone_mem s j now r' hr' hcase, hid', rfl, rfl⟩
          · refine ⟨r', ?_, hid', hdone', hsome'⟩
            show r' ∈ (sqlMarkDone s j now).rows
            unfold sqlMarkDone
            have hmm := List.mem_map_of_mem
              (f := fun x => if x.id = j then { x with done := true, completedAt := some now } else x) hr'
            simpa [hcase] using hmm
    rw [show runOps (ops ++ extra) = extra.foldl applyOp (runOps ops) by
      unfold runOps
      rw [List.foldl_append]]
    exact key extra (runOps ops) ⟨r, hr, hid, hdone, hsome⟩

/-- Witness for C6 at a concrete input: one add and one mark, then a
further re-mark. -/
theorem c6_completedAt_invariant_witness :
    ∃ r' ∈ (runOps ([Op.addOp "Buy milk".data [] sampleDate, Op.markOp 1 sampleDate] ++
        [Op.markOp 1 laterDate])).rows,
      r'.id = 1 ∧ r'.done = true ∧ r'.completedAt.isSome = true :=
  (c6_completedAt_invariant [Op.addOp "Buy milk".data [] sampleDate, Op.markOp 1 sampleDate]
      [Op.markOp 1 laterDate]).2 1
    ⟨{ sampleIncomplete with done := true, completedAt := some sampleDate },
      by decide, rfl, rfl⟩

/-- Claim C7: for every title and description (arbitrary character
lists, hence including empty, unicode, delimiter- and quote-bearing
strings), inserting into any well-formed store and then finding the
assigned id returns exactly the inserted task: same title and
description, done false, completion time absent. -/
theorem c7_create_findById (s : Store) (t d : GoStr) (now : DateTime)
    (hwf : s.Wf) :
    findTaskById (addTask s t d now) s.nextId =
      Except.ok { id := s.nextId, title := t, description := d, done := false,
                  createdAt := now, completedAt := none } := by
  obtain ⟨h1, h2, h3⟩ := hwf
  have hold : s.rows.filter (fun r => r.id == s.nextId) = [] := by
    rw [List.filter_eq_nil_iff]
    intro a ha
    have := h2 a ha
    simp only [beq_iff_eq]
    omega
  show Except.ok _ = _
  simp only [findTaskById, addTask, List.filter_append, hold, List.nil_append]
  rw [List.filter_cons_of_pos (by simp)]
  rfl

/-- Witness for C7 at a concrete input. -/
theorem c7_create_findById_witness :
    findTaskById (addTask Store.freshDb "Buy milk".data [] sampleDate) 1 =
      Except.ok { id := 1, title := "Buy milk".data, description := [],
                  done := false, createdAt := sampleDate, completedAt := none } :=
  c7_create_findById Store.freshDb "Buy milk".data [] sampleDate wf_freshDb.1

/-- Rows produced by a sequence of inserts: ids are consecutive from the
starting counter, titles appear in insertion order. -/
theorem addMany_spec (ps : List (GoStr × GoStr × DateTime)) :
    ∀ s : Store,
      (addMany s ps).rows.map Task.id =
        s.rows.map Task.id ++ List.range' s.nextId ps.length ∧
      (addMany s ps).rows.map Task.title =
        s.rows.map Task.title ++ ps.map (fun p => p.1) ∧
      (addMany s ps).nextId = s.nextId + ps.length := by
  induction ps with
  | nil =>
    intro s
    refine ⟨by simp [addMany], by simp [addMany], by simp [addMany]⟩
  | cons p ps ih =>
    intro s
    have hstep : addMany s (p :: ps) = addMany (addTask s p.1 p.2.1 p.2.2) ps := rfl
    have h := ih (addTask s p.1 p.2.1 p.2.2)
    refine ⟨?_, ?_, ?_⟩
    · rw [hstep, h.1]
      simp only [addTask, List.map_append, List.map_cons, List.map_nil,
        List.length_cons, List.range'_succ]
      simp
    · rw [hstep, h.2.1]
      simp only [addTask, List.map_append, List.map_cons, List.map_nil, List.map_cons]
      simp
    · rw [hstep, h.2.2]
      simp only [addTask, List.length_cons]
      omega

/-- Claim C10: listing a fresh store succeeds with the empty sequence,
and after N inserts the listing succeeds with exactly N tasks whose ids
are the consecutive integers starting at 1 (hence pairwise distinct)
and whose titles appear in creation order. -/
theorem c10_listTasks_order (ps : List (GoStr × GoStr × DateTime)) :
    listTasks Store.freshDb = Except.ok [] ∧
    listTasks (addMany Store.freshDb ps) = Except.ok (addMany Store.freshDb ps).rows ∧
    (addMany Store.freshDb ps).rows.length = ps.length ∧
    (addMany Store.freshDb ps).rows.map Task.id = List.range' 1 ps.length ∧
    ((addMany Store.freshDb ps).rows.map Task.id).Nodup ∧
    (addMany Store.freshDb ps).rows.map Task.title = ps.map (fun p => p.1) := by
  have h := addMany_spec ps Store.freshDb
  have hid : (addMany Store.freshDb ps).rows.map Task.id = List.range' 1 ps.length := by
    rw [h.1]
    rfl
  refine ⟨rfl, rfl, ?_, hid, ?_, ?_⟩
  · have := congrArg List.length hid
    simpa [List.length_range'] using this
  · rw [hid]
    exact List.nodup_range' 1 ps.length
  · rw [h.2.1]
    rfl

/-! ## Decimal digits and the timestamp format -/

theorem decDigitsAux_congr : ∀ n f1 f2, n < f1 → n < f2 →
    decDigitsAux f1 n = decDigitsAux f2 n := by
  intro n
  induction n using Nat.strong_induction_on with
  | _ n ih =>
    intro f1 f2 h1 h2
    cases f1 with
    | zero => omega
    | succ g1 =>
      cases f2 with
      | zero => omega
      | succ g2 =>
        simp only [decDigitsAux]
        by_cases h10 : n < 10
        · rw [if_pos h10, if_pos h10]
        · rw [if_neg h10, if_neg h10]
          have hd : n / 10 < n := Nat.div_lt_self (by omega) (by omega)
          rw [ih (n / 10) hd g1 g2 (by omega) (by omega)]

theorem decDigits_lt10 {n : Nat} (h : n < 10) :
    decDigits n = [Nat.digitChar n] := by
  simp only [decDigits, decDigitsAux]
  rw [if_pos h]

theorem decDigits_step {n : Nat} (h : 10 ≤ n) :
    decDigits n = decDigits (n / 10) ++ [Nat.digitChar (n % 10)] := by
  have hd : n / 10 < n := Nat.div_lt_self (by omega) (by omega)
  obtain ⟨m, rfl⟩ : ∃ m, n = m + 1 := ⟨n - 1, by omega⟩
  simp only [decDigits, decDigitsAux]
  rw [if_neg (by omega)]
  congr 1
  exact decDigitsAux_congr ((m + 1) / 10) (m + 1) ((m + 1) / 10 + 1) (by omega) (by omega)

theorem padNum2_eq (n : Nat) (h : n ≤ 99) : padNum 2 n = specPad2 n := by
  unfold padNum specPad2 specDigit
  by_cases h10 : n < 10
  · rw [decDigits_lt10 h10]
    have e1 : n / 10 = 0 := Nat.div_eq_of_lt h10
    have e2 : n % 10 = n := Nat.mod_eq_of_lt h10
    rw [e1, e2]
    rfl
  · have hq : n / 10 < 10 := by omega
    rw [decDigits_step (by omega), decDigits_lt10 hq]
    have e2 : n / 10 % 10 = n / 10 := Nat.mod_eq_of_lt hq
    rw [e2]
    rfl

theorem padNum4_eq (n : Nat) (h : n ≤ 9999) : padNum 4 n = specPad4 n := by
  unfold padNum specPad4 specDigit
  by_cases h10 : n < 10
  · rw [decDigits_lt10 h10]
    have e1 : n / 1000 = 0 := Nat.div_eq_of_lt (by omega)
    have e2 : n / 100 = 0 := Nat.div_eq_of_lt (by omega)
    have e3 : n / 10 = 0 := Nat.div_eq_of_lt h10
    have e4 : n % 10 = n := Nat.mod_eq_of_lt h10
    rw [e1, e2, e3, e4]
    rfl
  · by_cases h100 : n < 100
    · have hq : n / 10 < 10 := by omega
      rw [decDigits_step (by omega), decDigits_lt10 hq]
      have e1 : n / 1000 = 0 := Nat.div_eq_of_lt (by omega)
      have e2 : n / 100 = 0 := Nat.div_eq_of_lt (by omega)
      have e3 : n / 10 % 10 = n / 10 := Nat.mod_eq_of_lt hq
      rw [e1, e2, e3]
      rfl
    · by_cases h1000 : n < 1000
      · have hq1 : 10 ≤ n / 10 := by omega
        have hq2 : n / 10 / 10 < 10 := by
          rw [Nat.div_div_eq_div_mul]
          omega
        rw [decDigits_step (by omega), decDigits_step hq1, decDigits_lt10 hq2]
        have e1 : n / 1000 = 0 := Nat.div_eq_of_lt (by omega)
        have e2 : n / 10 / 10 = n / 100 := by rw [Nat.div_div_eq_div_mul]
        have e3 : n / 100 % 10 = n / 100 := Nat.mod_eq_of_lt (by omega)
        rw [e1, e2, e3]
        rfl
      · have hq1 : 10 ≤ n / 10 := by omega
        have hq2 : 10 ≤ n / 10 / 10 := by
          rw [Nat.div_div_eq_div_mul]
          omega
        have hq3 : n / 10 / 10 / 10 < 10 := by
          rw [Nat.div_div_eq_div_mul, Nat.div_div_eq_div_mul]
          omega
        rw [decDigits_step (by omega), decDigits_step hq1, decDigits_step hq2,
          decDigits_lt10 hq3]
        have e1 : n / 10 / 10 / 10 = n / 1000 := by
          rw [Nat.div_div_eq_div_mul, Nat.div_div_eq_div_mul]
        have e2 : n / 10 / 10 = n / 100 := by rw [Nat.div_div_eq_div_mul]
        have e3 : n / 1000 % 10 = n / 1000 := Nat.mod_eq_of_lt (by omega)
        rw [e1, e2, e3]
        rfl

theorem formatDateTime_eq_spec (d : DateTime) (hy : d.year ≤ 9999)
    (hmo : d.month ≤ 99) (hd : d.day ≤ 99) (hh : d.hour ≤ 99)
    (hmi : d.minute ≤ 99) (hs : d.second ≤ 99) :
    formatDateTime d = specTimestamp d := by
  unfold formatDateTime specTimestamp
  rw [padNum4_eq d.year hy, padNum2_eq d.month hmo, padNum2_eq d.day hd,
    padNum2_eq d.hour hh, padNum2_eq d.minute hmi, padNum2_eq d.second hs]

/-! ## CSV round trip -/

theorem escapeQuotes_cons_ne (c : Char) (f : GoStr) (hc : (c == '"') = false) :
    escapeQuotes (c :: f) = c :: escapeQuotes f := by
  simp [escapeQuotes, hc]

theorem parseQuoted_cons_ne (c : Char) (rest : GoStr) (hc : (c == '"') = false) :
    parseQuoted (c :: rest) = (parseQuoted rest).map (fun p => (c :: p.1, p.2)) := by
  cases rest <;> simp [parseQuoted, hc]

theorem parseQuoted_escape (f tail : GoStr)
    (htail : tail = [] ∨ ∃ c rest, tail = c :: rest ∧ (c == '"') = false) :
    parseQuoted (escapeQuotes f ++ ('"' :: tail)) = some (f, tail) := by
  induction f with
  | nil =>
    rcases htail with rfl | ⟨c, rest, rfl, hc⟩
    · rfl
    · show parseQuoted ('"' :: c :: rest) = some ([], c :: rest)
      simp [parseQuoted, hc]
  | cons c f ih =>
    by_cases hc : (c == '"') = true
    · have hceq : c = '"' := by simpa using hc
      subst hceq
      show (parseQuoted (escapeQuotes f ++ ('"' :: tail))).map
          (fun p => ('"' :: p.1, p.2)) = some ('"' :: f, tail)
      rw [ih]
      rfl
    · have hc' : (c == '"') = false := by simpa using hc
      rw [escapeQuotes_cons_ne c f hc', List.cons_append,
        parseQuoted_cons_ne c _ hc', ih]
      rfl

theorem parseUnquoted_plain (f tail : GoStr)
    (hf : ∀ c ∈ f, specialChar c = false)
    (htail : tail = [] ∨
      ∃ c rest, tail = c :: rest ∧ (c == ',' || c == '\n' || c == '\r') = true) :
    parseUnquoted (f ++ tail) = (f, tail) := by
  induction f with
  | nil =>
    rcases htail with rfl | ⟨c, rest, rfl, hc⟩
    · rfl
    · simp [parseUnquoted, hc]
  | cons c f ih =>
    have hc := hf c (List.mem_cons_self c f)
    have hcomma : (c == ',') = false := by
      simp only [specialChar] at hc
      simpa using fun h => by simp [h] at hc
    have hnl : (c == '\n') = false := by
      simp only [specialChar] at hc
      simpa using fun h => by simp [h] at hc
    have hcr : (c == '\r') = false := by
      simp only [specialChar] at hc
      simpa using fun h => by simp [h] at hc
    simp only [List.cons_append, parseUnquoted, hcomma, hnl, hcr,
      Bool.or_self, Bool.or_false, Bool.false_eq_true, if_false,
      List.append_eq]
    rw [ih (fun x hx => hf x (List.mem_cons_of_mem c hx))]

theorem fieldNeedsQuotes_false {f : GoStr} (h : fieldNeedsQuotes f = false) :
    ∀ c ∈ f, specialChar c = false := by
  intro c hc
  cases f with
  | nil => cases hc
  | cons x xs =>
    simp only [fieldNeedsQuotes, Bool.or_eq_false_iff] at h
    have hany := h.1.2
    rw [List.any_eq_false] at hany
    exact Bool.eq_false_iff.mpr (hany c hc)

theorem rfcParseField_roundtrip (f tail : GoStr)
    (htail : tail = [] ∨ (∃ rest, tail = ',' :: rest) ∨
      (∃ rest, tail = '\n' :: rest)) :
    rfcParseField (writeField f ++ tail) = some (f, tail) := by
  unfold writeField
  by_cases hq : fieldNeedsQuotes f = true
  · rw [if_pos hq]
    have hshape : ('"' :: (escapeQuotes f ++ ['"'])) ++ tail =
        '"' :: (escapeQuotes f ++ ('"' :: tail)) := by simp
    rw [hshape]
    show parseQuoted (escapeQuotes f ++ ('"' :: tail)) = some (f, tail)
    apply parseQuoted_escape
    rcases htail with rfl | ⟨rest, rfl⟩ | ⟨rest, rfl⟩
    · exact Or.inl rfl
    · exact Or.inr ⟨',', rest, rfl, by decide⟩
    · exact Or.inr ⟨'\n', rest, rfl, by decide⟩
  · rw [if_neg hq]
    have hq' : fieldNeedsQuotes f = false := by simpa using hq
    have hf := fieldNeedsQuotes_false hq'
    have htail' : tail = [] ∨
        ∃ c rest, tail = c :: rest ∧ (c == ',' || c == '\n' || c == '\r') = true := by
      rcases htail with rfl | ⟨rest, rfl⟩ | ⟨rest, rfl⟩
      · exact Or.inl rfl
      · exact Or.inr ⟨',', rest, rfl, by decide⟩
      · exact Or.inr ⟨'\n', rest, rfl, by decide⟩
    cases f with
    | nil =>
      rcases htail with rfl | ⟨rest, rfl⟩ | ⟨rest, rfl⟩
      · rfl
      · simp [rfcParseField, parseUnquoted]
      · simp [rfcParseField, parseUnquoted]
    | cons c f' =>
      have hcq : (c == '"') = false := by
        have := hf c (List.mem_cons_self c f')
        simp only [specialChar] at this
        simpa using fun h => by simp [h] at this
      show rfcParseField (c :: (f' ++ tail)) = some (c :: f', tail)
      simp only [rfcParseField, hcq, Bool.false_eq_true, if_false, List.tail_cons]
      rw [show c :: (f' ++ tail) = (c :: f') ++ tail from rfl,
        parseUnquoted_plain (c :: f') tail hf htail']

theorem writeRecord_length_ge (fields : List GoStr) :
    fields.length ≤ (writeRecord fields).length := by
  induction fields with
  | nil => simp [writeRecord]
  | cons f fs ih =>
    cases fs with
    | nil => simp [writeRecord]
    | cons g gs =>
      show (f :: g :: gs).length ≤ (writeField f ++ (',' :: writeRecord (g :: gs))).length
      simp only [List.length_cons, List.length_append] at *
      omega

theorem rfcParseFieldsAux_roundtrip : ∀ fields : List GoStr, fields ≠ [] →
    ∀ fuel, fields.length ≤ fuel →
      rfcParseFieldsAux fuel (writeRecord fields) = some (fields, []) := by
  intro fields
  induction fields with
  | nil => exact fun hne => absurd rfl hne
  | cons f fs ih =>
    intro _ fuel hfuel
    obtain ⟨g, rfl⟩ : ∃ g, fuel = g + 1 := ⟨fuel - 1, by simp at hfuel; omega⟩
    cases fs with
    | nil =>
      have hp := rfcParseField_roundtrip f ['\n'] (Or.inr (Or.inr ⟨[], rfl⟩))
      show rfcParseFieldsAux (g + 1) (writeField f ++ ['\n']) = some ([f], [])
      simp only [rfcParseFieldsAux, hp]
      rfl
    | cons g' gs =>
      have hp := rfcParseField_roundtrip f (',' :: writeRecord (g' :: gs))
        (Or.inr (Or.inl ⟨_, rfl⟩))
      show rfcParseFieldsAux (g + 1) (writeField f ++ (',' :: writeRecord (g' :: gs))) =
        some (f :: g' :: gs, [])
      simp only [rfcParseFieldsAux, hp]
      rw [ih (by simp) g (by simp at hfuel ⊢; omega)]
      rfl

theorem rfcParseRecord_roundtrip (fields : List GoStr) (hne : fields ≠ []) :
    rfcParseRecord (writeRecord fields) = some fields := by
  unfold rfcParseRecord
  rw [rfcParseFieldsAux_roundtrip fields hne ((writeRecord fields).length + 1)
    (by have := writeRecord_length_ge fields; omega)]

/-- Claim C8: the exported file is the single header row followed by one
row per task in listing order; the header row is exactly
`ID,Title,Description,Done,Created At,Completed At`; with zero tasks the
file is the header row alone; each task row has six fields with done
rendered `true`/`false` and an absent completion time rendered as a
zero-length sixth field; and the timestamp rendering agrees with the
spec's zero-padded `YYYY-MM-DD HH:MM:SS` description for in-range
components. -/
theorem c8_export_format :
    (∀ tasks, exportCSV tasks =
      writeRecord headerRecord ++
        (tasks.map (fun t => writeRecord (taskRecord t))).flatten) ∧
    writeRecord headerRecord =
      "ID,Title,Description,Done,Created At,Completed At\n".data ∧
    exportCSV [] = "ID,Title,Description,Done,Created At,Completed At\n".data ∧
    (∀ t, taskRecord t =
      [itoa t.id, t.title, t.description,
       if t.done then "true".data else "false".data,
       formatDateTime t.createdAt,
       (Option.map formatDateTime t.completedAt).getD []]) ∧
    (∀ d : DateTime, d.year ≤ 9999 → d.month ≤ 99 → d.day ≤ 99 →
      d.hour ≤ 99 → d.minute ≤ 99 → d.second ≤ 99 →
      formatDateTime d = specTimestamp d) := by
  refine ⟨fun tasks => rfl, by decide, by decide, ?_, formatDateTime_eq_spec⟩
  intro t
  obtain ⟨i, ti, de, dn, ca, co⟩ := t
  cases co <;> rfl

/-- Witness for C8 at a concrete in-range timestamp. -/
theorem c8_export_format_witness :
    formatDateTime sampleDate = specTimestamp sampleDate :=
  c8_export_format.2.2.2.2 sampleDate (by decide) (by decide) (by decide)
    (by decide) (by decide) (by decide)

/-- Claim C9: writing any non-empty record with the exporter's encoder
and re-reading it with an RFC-4180 reader recovers every field exactly;
in particular every task's exported row parses back to its exact title
and description, whatever characters they contain. -/
theorem c9_csv_roundtrip :
    (∀ fields : List GoStr, fields ≠ [] →
      rfcParseRecord (writeRecord fields) = some fields) ∧
    (∀ t : Task,
      rfcParseRecord (writeRecord (taskRecord t)) = some (taskRecord t) ∧
      (taskRecord t)[1]? = some t.title ∧
      (taskRecord t)[2]? = some t.description) := by
  refine ⟨fun fields hne => rfcParseRecord_roundtrip fields hne, fun t => ⟨?_, rfl, rfl⟩⟩
  exact rfcParseRecord_roundtrip (taskRecord t) (by simp [taskRecord])

/-- Witness for C9 on the spec's concrete example title
`A, "B", C`. -/
theorem c9_csv_roundtrip_witness :
    rfcParseRecord (writeRecord (taskRecord sampleQuoted)) =
      some (taskRecord sampleQuoted) :=
  c9_csv_roundtrip.1 (taskRecord sampleQuoted) (by decide)

end Tasker
